import Mathlib

/-!
Shallow embedding of the SPX dealer-positioning engine (`src/greeks.py`):
the Black-Scholes Greek primitives (`Greeks`), the `DealerBook` aggregator
(inventory estimation, exposure calculation, strike aggregation, gamma-flip
scan), and a small heap model for the constructor's `data.copy()` semantics.

Option rows carry the DataFrame columns used by the engine.  Column presence
(pandas `in self.data.columns` tests) is tracked by boolean flags on the
frame, since presence is a table-level property in pandas.  Numeric columns
are embedded over an arbitrary linear ordered commutative ring for the purely
order/arithmetic parts (inventory, aggregation, flip scan) and over `ℝ` for
the Black-Scholes parts.
-/

namespace SPX

/-- One row of the option-chain DataFrame.  `type` is the `'call'`/`'put'`
string column; `T` is the pre-resolved year fraction (the spec allows the
snapshot to carry `T` directly instead of an `expiry` timestamp). -/
structure OptionRow (α : Type) where
  strike : α
  type : String
  T : α
  iv : α
  open_interest : α
  buy_to_open : α
  sell_to_open : α
  gamma : α
  delta : α
  dealer_position : α
  GEX : α
  vanna : α
  net_vanna : α
  charm : α
  net_charm : α
deriving DecidableEq

/-- The option-chain DataFrame: rows plus column-presence flags.
`has_volume` models the presence of both `buy_to_open` and `sell_to_open`;
`has_gamma` the presence of a data-source `gamma` column; and
`has_dealer_position` whether `estimate_inventory` has populated
`dealer_position` (or the caller supplied it). -/
structure Frame (α : Type) where
  rows : List (OptionRow α)
  has_volume : Bool
  has_gamma : Bool
  has_dealer_position : Bool
deriving DecidableEq

/-- The `DealerBook`: one snapshot plus scalar market context. -/
structure DealerBook (α : Type) where
  data : Frame α
  spot_price : α
  risk_free_rate : α
deriving DecidableEq

variable {α : Type}

/-- `DealerBook.estimate_inventory`, row part of the volume branch:
`np.where(customer_net_buying > 0, -1, 1)` with
`customer_net_buying = buy_to_open - sell_to_open`. -/
def invRow [LinearOrderedCommRing α] (r : OptionRow α) : OptionRow α :=
  { r with dealer_position := if r.buy_to_open - r.sell_to_open > 0 then -1 else 1 }

/-- `DealerBook.estimate_inventory` on the frame: if the Cboe volume columns
are present classify per row from customer net buying, else default every
row to dealer short (-1). -/
def Frame.estimate_inventory [LinearOrderedCommRing α] (f : Frame α) : Frame α :=
  if f.has_volume then
    { f with rows := f.rows.map invRow, has_dealer_position := true }
  else
    { f with rows := f.rows.map (fun r => { r with dealer_position := -1 }),
             has_dealer_position := true }

/-- `DealerBook.estimate_inventory`. -/
def DealerBook.estimate_inventory [LinearOrderedCommRing α] (b : DealerBook α) :
    DealerBook α :=
  { b with data := b.data.estimate_inventory }

/-- Distinct strikes of the frame, ascending: the index of
`self.data.groupby('strike')` (pandas sorts group keys ascending). -/
def Frame.strikesSorted [LinearOrderedCommRing α] (f : Frame α) : List α :=
  List.insertionSort (· ≤ ·) ((f.rows.map (fun r => r.strike)).dedup)

/-- `DealerBook.get_gex_by_strike`: `groupby('strike')['GEX'].sum()` as an
ascending-strike association list. -/
def DealerBook.get_gex_by_strike [LinearOrderedCommRing α] (b : DealerBook α) :
    List (α × α) :=
  b.data.strikesSorted.map
    (fun k => (k, ((b.data.rows.filter (fun r => decide (r.strike = k))).map
      (fun r => r.GEX)).sum))

/-- `DealerBook.get_total_gex`: `self.data['GEX'].sum()`. -/
def DealerBook.get_total_gex [LinearOrderedCommRing α] (b : DealerBook α) : α :=
  (b.data.rows.map (fun r => r.GEX)).sum

/-- Running cumulative sum with accumulator (`Series.cumsum`). -/
def cumsumFrom [AddCommMonoid α] (acc : α) : List α → List α
  | [] => []
  | x :: xs => (acc + x) :: cumsumFrom (acc + x) xs

/-- `Series.cumsum`. -/
def cumsum [AddCommMonoid α] (l : List α) : List α := cumsumFrom 0 l

/-- `np.sign` restricted to the values the scan distinguishes. -/
def npSign [LinearOrderedCommRing α] (x : α) : Int :=
  if x < 0 then -1 else if 0 < x then 1 else 0

/-- Index of the first adjacent differing pair of a list: the source's
`crossings = np.where(np.diff(signs) != 0)[0]; crossings[0]`. -/
def firstChange : List Int → Option Nat
  | a :: b :: rest =>
      if a = b then (firstChange (b :: rest)).map (· + 1) else some 0
  | _ => none

/-- Sign sequence of the cumulative per-strike GEX, ascending by strike:
`np.sign(gex_by_strike.cumsum())` in `find_gamma_flip_strike`. -/
def DealerBook.signSeq [LinearOrderedCommRing α] (b : DealerBook α) : List Int :=
  (cumsum (b.get_gex_by_strike.map Prod.snd)).map npSign

/-- `DealerBook.find_gamma_flip_strike`: the strike right after the first
sign change of the cumulative per-strike GEX, else `None`. -/
def DealerBook.find_gamma_flip_strike [LinearOrderedCommRing α]
    (b : DealerBook α) : Option α :=
  match firstChange b.signSeq with
  | some i => (b.get_gex_by_strike.map Prod.fst).get? (i + 1)
  | none => none

/-- The first adjacent differing sign pair of the cumulative per-strike GEX
sits at positions `(i, i+1)`: both positions exist, their signs differ, and
every earlier adjacent pair agrees. -/
def IsFirstSignChange [LinearOrderedCommRing α] (b : DealerBook α) (i : Nat) :
    Prop :=
  i + 1 < b.signSeq.length ∧ b.signSeq.get? i ≠ b.signSeq.get? (i + 1) ∧
    ∀ j, j < i → b.signSeq.get? j = b.signSeq.get? (j + 1)

instance [LinearOrderedCommRing α] (b : DealerBook α) (i : Nat) :
    Decidable (IsFirstSignChange b i) := by
  unfold IsFirstSignChange; infer_instance

/-- `scipy.stats.norm.pdf`: the standard normal density. -/
noncomputable def normPdf (x : ℝ) : ℝ :=
  Real.exp (-(x ^ 2) / 2) / Real.sqrt (2 * Real.pi)

/-- `scipy.stats.norm.cdf`: the standard normal distribution function. -/
noncomputable def normCdf (x : ℝ) : ℝ := ∫ t in Set.Iic x, normPdf t

namespace Greeks

/-- `Greeks.d1`. -/
noncomputable def d1 (S K T r σ : ℝ) : ℝ :=
  (Real.log (S / K) + (r + 0.5 * σ ^ 2) * T) / (σ * Real.sqrt T)

/-- `Greeks.d2`. -/
noncomputable def d2 (S K T r σ : ℝ) : ℝ :=
  d1 S K T r σ - σ * Real.sqrt T

/-- `Greeks.calculate_gamma`. -/
noncomputable def calculate_gamma (S K T r σ : ℝ) : ℝ :=
  if T ≤ 0 then 0
  else normPdf (d1 S K T r σ) / (S * σ * Real.sqrt T)

/-- `Greeks.calculate_delta`. -/
noncomputable def calculate_delta (S K T r σ : ℝ) (option_type : String) : ℝ :=
  if T ≤ 0 then 0
  else if option_type = "call" then normCdf (d1 S K T r σ)
  else normCdf (d1 S K T r σ) - 1

/-- `Greeks.calculate_vanna` (same formula for both option types). -/
noncomputable def calculate_vanna (S K T r σ : ℝ) (option_type : String) : ℝ :=
  if T ≤ 0 then 0
  else (-normPdf (d1 S K T r σ)) * d2 S K T r σ / σ

/-- `Greeks.calculate_charm`. -/
noncomputable def calculate_charm (S K T r σ : ℝ) (option_type : String) : ℝ :=
  if T ≤ 0 then 0
  else
    let term1 := normPdf (d1 S K T r σ) *
      (r / (σ * Real.sqrt T) - d2 S K T r σ / (2 * T))
    if option_type = "call" then -term1
    else -term1 + r * Real.exp (-r * T)

end Greeks

/-- Gamma-fill row step of `calculate_greeks` (run only when the `gamma`
column is absent). -/
noncomputable def fillGammaRow (spot rate : ℝ) (r : OptionRow ℝ) : OptionRow ℝ :=
  { r with gamma := Greeks.calculate_gamma spot r.strike r.T rate r.iv }

/-- `self.data['GEX'] = gamma * open_interest * 100 * spot**2 * 0.01 *
dealer_position`, per row. -/
def gexRow (spot : ℝ) (r : OptionRow ℝ) : OptionRow ℝ :=
  { r with GEX := r.gamma * r.open_interest * 100 * spot ^ 2 * 0.01 *
      r.dealer_position }

/-- `self.data['vanna']` column assignment, per row. -/
noncomputable def vannaRow (spot rate : ℝ) (r : OptionRow ℝ) : OptionRow ℝ :=
  { r with vanna := Greeks.calculate_vanna spot r.strike r.T rate r.iv r.type }

/-- `self.data['net_vanna'] = vanna * open_interest * 100 * dealer_position`,
per row (reads the just-written `vanna` column). -/
def netVannaRow (r : OptionRow ℝ) : OptionRow ℝ :=
  { r with net_vanna := r.vanna * r.open_interest * 100 * r.dealer_position }

/-- `self.data['charm']` column assignment, per row. -/
noncomputable def charmRow (spot rate : ℝ) (r : OptionRow ℝ) : OptionRow ℝ :=
  { r with charm := Greeks.calculate_charm spot r.strike r.T rate r.iv r.type }

/-- `self.data['net_charm'] = charm * open_interest * 100 * dealer_position`,
per row. -/
def netCharmRow (r : OptionRow ℝ) : OptionRow ℝ :=
  { r with net_charm := r.charm * r.open_interest * 100 * r.dealer_position }

/-- First step of `calculate_greeks`: ensure `dealer_position` exists,
invoking `estimate_inventory` when it does not. -/
def Frame.invStage [LinearOrderedCommRing α] (f : Frame α) : Frame α :=
  if f.has_dealer_position then f else f.estimate_inventory

/-- Second step of `calculate_greeks`: fill the `gamma` column from the
Black-Scholes primitive only when the data source did not supply it. -/
noncomputable def Frame.gammaStage (f : Frame ℝ) (spot rate : ℝ) : Frame ℝ :=
  if f.has_gamma then f
  else { f with rows := f.rows.map (fillGammaRow spot rate), has_gamma := true }

/-- `DealerBook.calculate_greeks` on the frame: the five successive column
assignments of the source, after the dealer-position and gamma-fill steps. -/
noncomputable def Frame.calculate_greeks (f : Frame ℝ) (spot rate : ℝ) :
    Frame ℝ :=
  let f2 := f.invStage.gammaStage spot rate
  let f3 := { f2 with rows := f2.rows.map (gexRow spot) }
  let f4 := { f3 with rows := f3.rows.map (vannaRow spot rate) }
  let f5 := { f4 with rows := f4.rows.map netVannaRow }
  let f6 := { f5 with rows := f5.rows.map (charmRow spot rate) }
  { f6 with rows := f6.rows.map netCharmRow }

/-- `DealerBook.calculate_greeks`. -/
noncomputable def DealerBook.calculate_greeks (b : DealerBook ℝ) : DealerBook ℝ :=
  { b with data := b.data.calculate_greeks b.spot_price b.risk_free_rate }

/-- The composed exposure row map of `calculate_greeks` (GEX, vanna,
net_vanna, charm, net_charm, in source order). -/
noncomputable def exposuresRow (spot rate : ℝ) (r : OptionRow ℝ) : OptionRow ℝ :=
  netCharmRow (charmRow spot rate (netVannaRow (vannaRow spot rate (gexRow spot r))))

/-!
Heap model for the constructor's aliasing behaviour.  DataFrames live in a
heap of cells addressed by natural numbers; the caller passes the index of
its table, `DealerBook.__init__` runs `self.data = data.copy()` — it
allocates a fresh cell holding a copy of the caller's table — and every
mutating method writes only through the book's own reference.
-/

/-- The heap of materialized DataFrames. -/
abbrev Heap (α : Type) := List (Frame α)

/-- A `DealerBook` whose snapshot is a heap reference rather than a value. -/
structure BookRef (α : Type) where
  ref : Nat
  spot_price : α
  risk_free_rate : α

/-- The empty DataFrame (out-of-bounds heap default). -/
def emptyFrame : Frame α := ⟨[], false, false, false⟩

/-- `DealerBook.__init__`: allocate a fresh cell holding a copy of the
caller's table (`self.data = data.copy()`) and return the book handle. -/
def initBook (h : Heap α) (i : Nat) (spot rate : α) : Heap α × BookRef α :=
  (h ++ [h.getD i emptyFrame], ⟨h.length, spot, rate⟩)

/-- The `DealerBook` methods, as heap operations. -/
inductive DealerOp : Type
  | inventory : DealerOp
  | greeks : DealerOp
  | query : DealerOp

/-- One method call: `estimate_inventory` and `calculate_greeks` rewrite the
book's own cell in place; the aggregate queries (`get_total_gex`,
`get_gex_by_strike`, `find_gamma_flip_strike`) read without writing. -/
noncomputable def stepOp (b : BookRef ℝ) (h : Heap ℝ) : DealerOp → Heap ℝ
  | DealerOp.inventory =>
      h.set b.ref ((h.getD b.ref emptyFrame).estimate_inventory)
  | DealerOp.greeks =>
      h.set b.ref
        ((h.getD b.ref emptyFrame).calculate_greeks b.spot_price b.risk_free_rate)
  | DealerOp.query => h

/-- Run a sequence of method calls against the book. -/
noncomputable def runOps (b : BookRef ℝ) (h : Heap ℝ) (ops : List DealerOp) :
    Heap ℝ :=
  ops.foldl (stepOp b) h

/-!
Concrete snapshots used to evaluate the theorems on explicit inputs.
Field order of `OptionRow`: strike, type, T, iv, open_interest, buy_to_open,
sell_to_open, gamma, delta, dealer_position, GEX, vanna, net_vanna, charm,
net_charm.
-/

/-- A row carrying a strike and a GEX value (the flip-scan test shape of the
source's test suite). -/
def flipRow (k g : ℤ) : OptionRow ℤ :=
  ⟨k, "call", 1, 0, 1000, 0, 0, 0, 0, 0, g, 0, 0, 0, 0⟩

/-- Per-strike exposures -100, -50, +60, +100, +100 at strikes
4000..4200: cumulative sums -100, -150, -90, 10, 110. -/
def bookFlip : DealerBook ℤ :=
  ⟨⟨[flipRow 4000 (-100), flipRow 4050 (-50), flipRow 4100 60,
     flipRow 4150 100, flipRow 4200 100], false, false, false⟩, 4100, 0⟩

/-- Strictly positive cumulative exposures: 10, 30, 60, 100. -/
def bookNoFlip : DealerBook ℤ :=
  ⟨⟨[flipRow 4000 10, flipRow 4050 20, flipRow 4100 30, flipRow 4150 40],
    false, false, false⟩, 4100, 0⟩

/-- A call row with customer buy 100 / sell 50. -/
def rowInv : OptionRow ℤ := ⟨4000, "call", 1, 0, 1000, 100, 50, 0, 0, 0, 0, 0, 0, 0, 0⟩

/-- Snapshot with the Cboe volume columns present. -/
def bookInv : DealerBook ℤ := ⟨⟨[rowInv], true, false, false⟩, 4100, 0⟩

/-- The row after inventory classification. -/
def rowInvOut : OptionRow ℤ := invRow rowInv

/-- A real-valued row with a data-source gamma of 0.02. -/
noncomputable def rowR : OptionRow ℝ :=
  ⟨4000, "call", 1, 0.2, 1000, 100, 50, 0.02, 0.5, 1, 0, 0, 0, 0, 0⟩

/-- Snapshot with gamma, dealer_position and the volume columns present. -/
noncomputable def bookGrk : DealerBook ℝ := ⟨⟨[rowR], true, true, true⟩, 4100, 0.04⟩

/-- The row after exposure calculation on `bookGrk`. -/
noncomputable def rowROut : OptionRow ℝ := exposuresRow 4100 0.04 rowR

/-- Snapshot with a data-source gamma column but no dealer position yet. -/
noncomputable def bookG9 : DealerBook ℝ := ⟨⟨[rowR], true, true, false⟩, 4100, 0.04⟩

/-- The caller's heap before construction: one table at address 0. -/
noncomputable def wHeap : Heap ℝ := [⟨[rowR], true, false, false⟩]

/-! Helper lemmas. -/

theorem cumsumFrom_length [AddCommMonoid α] (acc : α) (l : List α) :
    (cumsumFrom acc l).length = l.length := by
  induction l generalizing acc with
  | nil => rfl
  | cons x xs ih => simp [cumsumFrom, ih]

theorem signSeq_length [LinearOrderedCommRing α] (b : DealerBook α) :
    b.signSeq.length = b.get_gex_by_strike.length := by
  simp [DealerBook.signSeq, cumsum, cumsumFrom_length]

theorem firstChange_eq_some :
    ∀ (l : List Int) (i : Nat), i + 1 < l.length →
      l.get? i ≠ l.get? (i + 1) → (∀ j, j < i → l.get? j = l.get? (j + 1)) →
      firstChange l = some i
  | [], i, h1, _, _ => absurd h1 (by simp)
  | [_], i, h1, _, _ => by simp at h1
  | a :: b :: rest, 0, _, h2, _ => by
      have hab : a ≠ b := fun h => h2 (by simp [h])
      simp [firstChange, hab]
  | a :: b :: rest, (i + 1), h1, h2, h3 => by
      have hab : a = b := by
        have := h3 0 (Nat.succ_pos i)
        simpa using this
      have ih := firstChange_eq_some (b :: rest) i
        (by simpa using h1) (by simpa using h2)
        (fun j hj => by
          have := h3 (j + 1) (Nat.succ_lt_succ hj)
          simpa using this)
      simp [firstChange, hab, ih]

theorem firstChange_eq_none :
    ∀ l : List Int, l.Chain' (fun a b => a = b) → firstChange l = none
  | [], _ => rfl
  | [_], _ => rfl
  | a :: b :: rest, h => by
      have hab : a = b := (List.chain'_cons.1 h).1
      have ih := firstChange_eq_none (b :: rest) (List.chain'_cons.1 h).2
      simp [firstChange, hab, ih]

theorem get?_set_of_ne {β : Type} (l : List β) (n m : Nat) (a : β)
    (h : n ≠ m) : (l.set n a).get? m = l.get? m := by
  induction l generalizing n m with
  | nil => rfl
  | cons x xs ih =>
      cases n with
      | zero =>
          cases m with
          | zero => exact absurd rfl h
          | succ m => rfl
      | succ n =>
          cases m with
          | zero => rfl
          | succ m => simpa using ih n m (fun hh => h (by rw [hh]))

theorem get?_append_of_lt {β : Type} (l₁ l₂ : List β) (n : Nat)
    (h : n < l₁.length) : (l₁ ++ l₂).get? n = l₁.get? n := by
  induction l₁ generalizing n with
  | nil => simp at h
  | cons x xs ih =>
      cases n with
      | zero => rfl
      | succ n => simpa using ih n (by simpa using h)

theorem map_congr_mem {β γ : Type} {f g : β → γ} :
    ∀ l : List β, (∀ a, a ∈ l → f a = g a) → l.map f = l.map g
  | [], _ => rfl
  | x :: xs, h => by
      simp only [List.map_cons, h x (List.mem_cons_self x xs),
        map_congr_mem xs (fun a ha => h a (List.mem_cons_of_mem x ha))]

theorem frameExt (x y : Frame α) (h1 : x.rows = y.rows)
    (h2 : x.has_volume = y.has_volume) (h3 : x.has_gamma = y.has_gamma)
    (h4 : x.has_dealer_position = y.has_dealer_position) : x = y := by
  cases x; cases y; simp_all

theorem estimate_inventory_flags [LinearOrderedCommRing α] (f : Frame α) :
    f.estimate_inventory.has_dealer_position = true ∧
    f.estimate_inventory.has_gamma = f.has_gamma ∧
    f.estimate_inventory.has_volume = f.has_volume := by
  unfold Frame.estimate_inventory
  split <;> exact ⟨rfl, rfl, rfl⟩

theorem invStage_flags [LinearOrderedCommRing α] (f : Frame α) :
    f.invStage.has_dealer_position = true ∧
    f.invStage.has_gamma = f.has_gamma ∧
    f.invStage.has_volume = f.has_volume := by
  unfold Frame.invStage
  split
  · next h => exact ⟨h, rfl, rfl⟩
  · exact estimate_inventory_flags f

theorem gammaStage_flags (f : Frame ℝ) (s t : ℝ) :
    (f.gammaStage s t).has_gamma = true ∧
    (f.gammaStage s t).has_dealer_position = f.has_dealer_position ∧
    (f.gammaStage s t).has_volume = f.has_volume := by
  unfold Frame.gammaStage
  split
  · next h => exact ⟨h, rfl, rfl⟩
  · exact ⟨rfl, rfl, rfl⟩

theorem calc_flags (f : Frame ℝ) (s t : ℝ) :
    (f.calculate_greeks s t).has_dealer_position = true ∧
    (f.calculate_greeks s t).has_gamma = true ∧
    (f.calculate_greeks s t).has_volume = f.has_volume := by
  refine ⟨?_, ?_, ?_⟩
  · show (f.invStage.gammaStage s t).has_dealer_position = true
    rw [(gammaStage_flags _ _ _).2.1, (invStage_flags _).1]
  · exact (gammaStage_flags _ _ _).1
  · show (f.invStage.gammaStage s t).has_volume = f.has_volume
    rw [(gammaStage_flags _ _ _).2.2, (invStage_flags _).2.2]

theorem calc_rows (f : Frame ℝ) (s t : ℝ) :
    (f.calculate_greeks s t).rows =
      (f.invStage.gammaStage s t).rows.map (exposuresRow s t) := by
  simp only [Frame.calculate_greeks, List.map_map]
  rfl

theorem exposuresRow_apply_twice (s t : ℝ) (r : OptionRow ℝ) :
    exposuresRow s t (exposuresRow s t r) = exposuresRow s t r := rfl

theorem calc_idem (f : Frame ℝ) (s t : ℝ) :
    (f.calculate_greeks s t).calculate_greeks s t = f.calculate_greeks s t := by
  have h1 : (f.calculate_greeks s t).invStage = f.calculate_greeks s t := by
    unfold Frame.invStage
    rw [if_pos (calc_flags f s t).1]
  have h2 : (f.calculate_greeks s t).invStage.gammaStage s t =
      f.calculate_greeks s t := by
    rw [h1]
    unfold Frame.gammaStage
    rw [if_pos (calc_flags f s t).2.1]
  refine frameExt _ _ ?_ ?_ ?_ ?_
  · rw [calc_rows, h2, calc_rows, List.map_map]
    exact map_congr_mem _ (fun r _ => exposuresRow_apply_twice s t r)
  · rw [(calc_flags _ s t).2.2, (calc_flags f s t).2.2]
  · rw [(calc_flags _ s t).2.1, (calc_flags f s t).2.1]
  · rw [(calc_flags _ s t).1, (calc_flags f s t).1]

theorem invStage_rows_map [LinearOrderedCommRing α] {β : Type} (f : Frame α)
    (g : OptionRow α → β) (h1 : ∀ r, g (invRow r) = g r)
    (h2 : ∀ r, g { r with dealer_position := (-1 : α) } = g r) :
    f.invStage.rows.map g = f.rows.map g := by
  unfold Frame.invStage Frame.estimate_inventory
  split
  · rfl
  · split
    · rw [List.map_map]
      exact map_congr_mem _ (fun r _ => h1 r)
    · rw [List.map_map]
      exact map_congr_mem _ (fun r _ => h2 r)

theorem normPdf_pos (x : ℝ) : 0 < normPdf x := by
  unfold normPdf
  apply div_pos (Real.exp_pos _)
  apply Real.sqrt_pos.2
  positivity

theorem gamma_pos (S K T r σ : ℝ) (hS : 0 < S) (hσ : 0 < σ) (hT : 0 < T) :
    0 < Greeks.calculate_gamma S K T r σ := by
  unfold Greeks.calculate_gamma
  rw [if_neg (not_le.2 hT)]
  apply div_pos (normPdf_pos _)
  have h := Real.sqrt_pos.2 hT
  positivity

/-! Claim theorems. -/

/-- C1: whenever the sign sequence of the running cumulative sum of the
per-strike aggregate gamma exposure (sorted by strike ascending) has its
first adjacent differing pair at positions `(i, i+1)`,
`find_gamma_flip_strike` returns the strike at the second position of that
pair. -/
theorem find_gamma_flip_at_first_sign_change {α : Type} [LinearOrderedCommRing α]
    (b : DealerBook α) (i : Nat) (h : IsFirstSignChange b i) :
    ∃ k : α, (b.get_gex_by_strike.map Prod.fst).get? (i + 1) = some k ∧
      b.find_gamma_flip_strike = some k := by
  obtain ⟨hlen, hne, hfirst⟩ := h
  have hfc : firstChange b.signSeq = some i :=
    firstChange_eq_some _ _ hlen hne hfirst
  have hlen' : i + 1 < (b.get_gex_by_strike.map Prod.fst).length := by
    rw [List.length_map]
    rw [signSeq_length] at hlen
    exact hlen
  refine ⟨(b.get_gex_by_strike.map Prod.fst).get ⟨i + 1, hlen'⟩,
    List.get?_eq_get hlen', ?_⟩
  unfold DealerBook.find_gamma_flip_strike
  rw [hfc]
  exact List.get?_eq_get hlen'

/-- C1 witness: per-strike exposures -100, -50, +60, +100, +100 at strikes
4000..4200 flip at 4150 (first sign change at positions 2,3). -/
theorem find_gamma_flip_at_first_sign_change_witness :
    IsFirstSignChange bookFlip 2 ∧
      bookFlip.find_gamma_flip_strike = some 4150 := by
  have h : IsFirstSignChange bookFlip 2 := by decide
  obtain ⟨k, hk1, hk2⟩ := find_gamma_flip_at_first_sign_change bookFlip 2 h
  have hk3 : (bookFlip.get_gex_by_strike.map Prod.fst).get? (2 + 1) =
      some 4150 := by decide
  rw [hk3] at hk1
  injection hk1 with hk4
  rw [← hk4] at hk2
  exact ⟨h, hk2⟩

/-- C5: when the sign sequence of the cumulative per-strike gamma exposure
never changes across the whole strike ladder, `find_gamma_flip_strike`
returns the explicit no-flip result `none`. -/
theorem find_gamma_flip_none_of_constant_sign {α : Type}
    [LinearOrderedCommRing α] (b : DealerBook α)
    (h : b.signSeq.Chain' (fun a c => a = c)) :
    b.find_gamma_flip_strike = none := by
  unfold DealerBook.find_gamma_flip_strike
  rw [firstChange_eq_none b.signSeq h]

/-- C5 witness: strictly positive cumulative exposures 10, 30, 60, 100
yield no flip. -/
theorem find_gamma_flip_none_of_constant_sign_witness :
    bookNoFlip.signSeq.Chain' (fun a c => a = c) ∧
      bookNoFlip.find_gamma_flip_strike = none := by
  have hs : bookNoFlip.signSeq = [1, 1, 1, 1] := by decide
  have h : bookNoFlip.signSeq.Chain' (fun a c => a = c) := by
    rw [hs]
    simp
  exact ⟨h, find_gamma_flip_none_of_constant_sign bookNoFlip h⟩

/-- C2: after `estimate_inventory`, with the volume columns present every
record with positive customer net buying has dealer_position -1 and every
other record +1; with the columns absent every record gets -1; in all cases
dealer_position is +1 or -1. -/
theorem estimate_inventory_spec {α : Type} [LinearOrderedCommRing α]
    (b : DealerBook α) (r : OptionRow α)
    (hr : r ∈ b.estimate_inventory.data.rows) :
    (b.data.has_volume = true →
      (r.buy_to_open - r.sell_to_open > 0 → r.dealer_position = -1) ∧
      (r.buy_to_open - r.sell_to_open ≤ 0 → r.dealer_position = 1)) ∧
    (b.data.has_volume = false → r.dealer_position = -1) ∧
    (r.dealer_position = 1 ∨ r.dealer_position = -1) := by
  by_cases hv : b.data.has_volume = true
  · have hr' : r ∈ b.data.rows.map invRow := by
      unfold DealerBook.estimate_inventory Frame.estimate_inventory at hr
      rw [if_pos hv] at hr
      exact hr
    obtain ⟨r₀, _, rfl⟩ := List.mem_map.1 hr'
    by_cases hpos : r₀.buy_to_open - r₀.sell_to_open > 0
    · have hdp : (invRow r₀).dealer_position = -1 := by
        unfold invRow
        simp [hpos]
      exact ⟨fun _ => ⟨fun _ => hdp, fun hle => absurd hpos (not_lt.2 hle)⟩,
        fun _ => hdp, Or.inr hdp⟩
    · have hdp : (invRow r₀).dealer_position = 1 := by
        unfold invRow
        simp [hpos]
      exact ⟨fun _ => ⟨fun hgt => absurd hgt hpos, fun _ => hdp⟩,
        fun hfalse => absurd (hv.symm.trans hfalse) (by decide), Or.inl hdp⟩
  · have hr' : r ∈ b.data.rows.map
        (fun r => { r with dealer_position := (-1 : α) }) := by
      unfold DealerBook.estimate_inventory Frame.estimate_inventory at hr
      rw [if_neg hv] at hr
      exact hr
    obtain ⟨r₀, _, rfl⟩ := List.mem_map.1 hr'
    exact ⟨fun hvt => absurd hvt hv, fun _ => rfl, Or.inr rfl⟩

/-- C2 witness: customer buy 100 / sell 50 classifies the dealer short. -/
theorem estimate_inventory_spec_witness :
    rowInvOut ∈ bookInv.estimate_inventory.data.rows ∧
      rowInvOut.dealer_position = -1 := by
  have hr : rowInvOut ∈ bookInv.estimate_inventory.data.rows := by decide
  exact ⟨hr, ((estimate_inventory_spec bookInv rowInvOut hr).1 rfl).1 (by decide)⟩

/-- C3: every record of a DealerBook after `calculate_greeks` satisfies the
exposure formulas GEX = gamma * open_interest * 100 * spot^2 * 0.01 *
dealer_position, net_vanna = vanna * open_interest * 100 * dealer_position,
net_charm = charm * open_interest * 100 * dealer_position. -/
theorem calculate_greeks_exposure_formulas (b : DealerBook ℝ) (r : OptionRow ℝ)
    (hr : r ∈ b.calculate_greeks.data.rows) :
    r.GEX = r.gamma * r.open_interest * 100 * b.spot_price ^ 2 * 0.01 *
        r.dealer_position ∧
    r.net_vanna = r.vanna * r.open_interest * 100 * r.dealer_position ∧
    r.net_charm = r.charm * r.open_interest * 100 * r.dealer_position := by
  have hr' : r ∈ (b.data.calculate_greeks b.spot_price b.risk_free_rate).rows :=
    hr
  rw [calc_rows] at hr'
  obtain ⟨r₀, _, rfl⟩ := List.mem_map.1 hr'
  exact ⟨rfl, rfl, rfl⟩

/-- C3 witness: the exposure formulas hold on a concrete one-row book. -/
theorem calculate_greeks_exposure_formulas_witness :
    rowROut ∈ bookGrk.calculate_greeks.data.rows ∧
    (rowROut.GEX = rowROut.gamma * rowROut.open_interest * 100 *
        bookGrk.spot_price ^ 2 * 0.01 * rowROut.dealer_position ∧
     rowROut.net_vanna = rowROut.vanna * rowROut.open_interest * 100 *
        rowROut.dealer_position ∧
     rowROut.net_charm = rowROut.charm * rowROut.open_interest * 100 *
        rowROut.dealer_position) := by
  have hr : rowROut ∈ bookGrk.calculate_greeks.data.rows := by
    show rowROut ∈ [rowROut]
    exact List.mem_singleton_self rowROut
  exact ⟨hr, calculate_greeks_exposure_formulas bookGrk rowROut hr⟩

/-- C6: exposure calculation is idempotent: running `calculate_greeks` twice
leaves the GEX, net_vanna and net_charm columns identical to one run. -/
theorem calculate_greeks_idempotent (b : DealerBook ℝ) :
    b.calculate_greeks.calculate_greeks.data.rows.map (fun r => r.GEX) =
      b.calculate_greeks.data.rows.map (fun r => r.GEX) ∧
    b.calculate_greeks.calculate_greeks.data.rows.map (fun r => r.net_vanna) =
      b.calculate_greeks.data.rows.map (fun r => r.net_vanna) ∧
    b.calculate_greeks.calculate_greeks.data.rows.map (fun r => r.net_charm) =
      b.calculate_greeks.data.rows.map (fun r => r.net_charm) := by
  have h : b.calculate_greeks.calculate_greeks = b.calculate_greeks := by
    show DealerBook.mk
      ((b.data.calculate_greeks b.spot_price b.risk_free_rate).calculate_greeks
        b.spot_price b.risk_free_rate) b.spot_price b.risk_free_rate =
      DealerBook.mk (b.data.calculate_greeks b.spot_price b.risk_free_rate)
        b.spot_price b.risk_free_rate
    rw [calc_idem]
  rw [h]
  exact ⟨rfl, rfl, rfl⟩

/-- C9: a data-source gamma column is trusted: `calculate_greeks` leaves the
gamma column unchanged when it is present, and recomputes it per record from
the Black-Scholes primitive exactly when it is absent. -/
theorem calculate_greeks_gamma_trusted (b : DealerBook ℝ) :
    (b.data.has_gamma = true →
      b.calculate_greeks.data.rows.map (fun r => r.gamma) =
        b.data.rows.map (fun r => r.gamma)) ∧
    (b.data.has_gamma = false →
      b.calculate_greeks.data.rows.map (fun r => r.gamma) =
        b.data.rows.map (fun r =>
          Greeks.calculate_gamma b.spot_price r.strike r.T b.risk_free_rate
            r.iv)) := by
  have hrows : b.calculate_greeks.data.rows =
      (b.data.invStage.gammaStage b.spot_price b.risk_free_rate).rows.map
        (exposuresRow b.spot_price b.risk_free_rate) :=
    calc_rows b.data b.spot_price b.risk_free_rate
  constructor
  · intro hg
    rw [hrows]
    rw [show b.data.invStage.gammaStage b.spot_price b.risk_free_rate =
        b.data.invStage from by
      unfold Frame.gammaStage
      rw [if_pos (((invStage_flags b.data).2.1).trans hg)]]
    rw [List.map_map]
    have h1 : b.data.invStage.rows.map
        ((fun r => r.gamma) ∘ exposuresRow b.spot_price b.risk_free_rate) =
        b.data.invStage.rows.map (fun r => r.gamma) :=
      map_congr_mem _ (fun r _ => rfl)
    rw [h1]
    exact invStage_rows_map b.data (fun r => r.gamma) (fun r => rfl)
      (fun r => rfl)
  · intro hg
    rw [hrows]
    have hns : b.data.invStage.gammaStage b.spot_price b.risk_free_rate =
        { b.data.invStage with
          rows := b.data.invStage.rows.map
            (fillGammaRow b.spot_price b.risk_free_rate),
          has_gamma := true } := by
      unfold Frame.gammaStage
      rw [if_neg (by rw [(invStage_flags b.data).2.1, hg]; decide)]
    rw [hns]
    simp only [List.map_map]
    exact (map_congr_mem _ (fun r _ => rfl)).trans
      (invStage_rows_map b.data
        (fun r => Greeks.calculate_gamma b.spot_price r.strike r.T
          b.risk_free_rate r.iv) (fun r => rfl) (fun r => rfl))

/-- C9 witness: with a supplied gamma column, the gamma values survive
`calculate_greeks` unchanged. -/
theorem calculate_greeks_gamma_trusted_witness :
    bookG9.data.has_gamma = true ∧
    bookG9.calculate_greeks.data.rows.map (fun r => r.gamma) =
      bookG9.data.rows.map (fun r => r.gamma) :=
  ⟨rfl, (calculate_greeks_gamma_trusted bookG9).1 rfl⟩

/-- C4: all four pricing primitives return 0 whenever T ≤ 0, for every
value of the remaining arguments and either option type; and on the valid
domain S, K, σ > 0 gamma vanishes exactly when T ≤ 0. -/
theorem greeks_zero_on_expiry :
    (∀ S K T r σ : ℝ, T ≤ 0 → Greeks.calculate_gamma S K T r σ = 0) ∧
    (∀ (S K T r σ : ℝ) (ty : String), T ≤ 0 →
      Greeks.calculate_delta S K T r σ ty = 0) ∧
    (∀ (S K T r σ : ℝ) (ty : String), T ≤ 0 →
      Greeks.calculate_vanna S K T r σ ty = 0) ∧
    (∀ (S K T r σ : ℝ) (ty : String), T ≤ 0 →
      Greeks.calculate_charm S K T r σ ty = 0) ∧
    (∀ S K T r σ : ℝ, 0 < S → 0 < K → 0 < σ →
      (Greeks.calculate_gamma S K T r σ = 0 ↔ T ≤ 0)) := by
  refine ⟨?_, ?_, ?_, ?_, ?_⟩
  · intro S K T r σ hT
    unfold Greeks.calculate_gamma
    rw [if_pos hT]
  · intro S K T r σ ty hT
    unfold Greeks.calculate_delta
    rw [if_pos hT]
  · intro S K T r σ ty hT
    unfold Greeks.calculate_vanna
    rw [if_pos hT]
  · intro S K T r σ ty hT
    unfold Greeks.calculate_charm
    rw [if_pos hT]
  · intro S K T r σ hS hK hσ
    constructor
    · intro h0
      by_contra hT
      have hpos := gamma_pos S K T r σ hS hσ (not_le.1 hT)
      rw [h0] at hpos
      exact lt_irrefl 0 hpos
    · intro hT
      unfold Greeks.calculate_gamma
      rw [if_pos hT]

/-- C4 witness: the guards evaluated at T = 0 and the characterization at
T = 1 on concrete valid inputs. -/
theorem greeks_zero_on_expiry_witness :
    Greeks.calculate_gamma 100 100 0 0.04 0.2 = 0 ∧
    Greeks.calculate_delta 100 100 0 0.04 0.2 "call" = 0 ∧
    Greeks.calculate_vanna 100 100 0 0.04 0.2 "call" = 0 ∧
    Greeks.calculate_charm 100 100 0 0.04 0.2 "put" = 0 ∧
    (Greeks.calculate_gamma 100 100 1 0.04 0.2 = 0 ↔ (1 : ℝ) ≤ 0) :=
  ⟨greeks_zero_on_expiry.1 100 100 0 0.04 0.2 le_rfl,
   greeks_zero_on_expiry.2.1 100 100 0 0.04 0.2 "call" le_rfl,
   greeks_zero_on_expiry.2.2.1 100 100 0 0.04 0.2 "call" le_rfl,
   greeks_zero_on_expiry.2.2.2.1 100 100 0 0.04 0.2 "put" le_rfl,
   greeks_zero_on_expiry.2.2.2.2 100 100 1 0.04 0.2 (by norm_num)
     (by norm_num) (by norm_num)⟩

/-- C8: for S, K, σ, T all strictly positive, the Black-Scholes gamma
primitive returns a strictly positive value. -/
theorem gamma_strictly_positive (S K T r σ : ℝ) (hS : 0 < S) (hK : 0 < K)
    (hσ : 0 < σ) (hT : 0 < T) : 0 < Greeks.calculate_gamma S K T r σ :=
  gamma_pos S K T r σ hS hσ hT

/-- C8 witness: gamma is positive at S = K = 100, T = 1, r = 0.04,
σ = 0.2. -/
theorem gamma_strictly_positive_witness :
    (0 : ℝ) < 100 ∧ (0 : ℝ) < 1 ∧ (0 : ℝ) < 0.2 ∧
    0 < Greeks.calculate_gamma 100 100 1 0.04 0.2 :=
  ⟨by norm_num, by norm_num, by norm_num,
   gamma_strictly_positive 100 100 1 0.04 0.2 (by norm_num) (by norm_num)
     (by norm_num) (by norm_num)⟩

/-- C7 counterexample: at T = 0 both deltas hit the T ≤ 0 guard and return
0, so call delta minus put delta is 0, not 1, at the identical input tuple
(100, 100, 0, 0.04, 0.2). -/
theorem delta_parity_fails_at_expiry :
    ¬(Greeks.calculate_delta 100 100 0 0.04 0.2 "call" -
        Greeks.calculate_delta 100 100 0 0.04 0.2 "put" = 1) := by
  unfold Greeks.calculate_delta
  rw [if_pos le_rfl, if_pos le_rfl]
  norm_num

/-- C7 amended: for every input tuple with T > 0, the delta primitive for a
call minus the delta primitive for a put equals 1. -/
theorem delta_put_call_parity (S K T r σ : ℝ) (hT : 0 < T) :
    Greeks.calculate_delta S K T r σ "call" -
      Greeks.calculate_delta S K T r σ "put" = 1 := by
  unfold Greeks.calculate_delta
  rw [if_neg (not_le.2 hT), if_neg (not_le.2 hT), if_pos rfl,
    if_neg (show ¬(("put" : String) = "call") by decide)]
  ring

/-- C7 witness: put-call parity on delta at T = 1. -/
theorem delta_put_call_parity_witness :
    (0 : ℝ) < 1 ∧
    Greeks.calculate_delta 100 100 1 0.04 0.2 "call" -
      Greeks.calculate_delta 100 100 1 0.04 0.2 "put" = 1 :=
  ⟨by norm_num, delta_put_call_parity 100 100 1 0.04 0.2 (by norm_num)⟩

theorem runOps_get?_of_ne (b : BookRef ℝ) (i : Nat) (hne : i ≠ b.ref) :
    ∀ (ops : List DealerOp) (H : Heap ℝ), (runOps b H ops).get? i = H.get? i
  | [], _ => rfl
  | op :: ops, H => by
      have hstep : (stepOp b H op).get? i = H.get? i := by
        cases op
        · exact get?_set_of_ne _ _ _ _ (fun hh => hne hh.symm)
        · exact get?_set_of_ne _ _ _ _ (fun hh => hne hh.symm)
        · rfl
      calc (runOps b H (op :: ops)).get? i
          = (runOps b (stepOp b H op) ops).get? i := rfl
        _ = (stepOp b H op).get? i := runOps_get?_of_ne b i hne ops _
        _ = H.get? i := hstep

/-- C10: the constructor stores a copy of the caller's table, so the
caller's cell of the heap is left unchanged by construction and by every
subsequent sequence of DealerBook operations (inventory estimation, Greeks
calculation, queries). -/
theorem init_copy_preserves_caller (h : Heap ℝ) (i : Nat) (hi : i < h.length)
    (spot rate : ℝ) (ops : List DealerOp) :
    (runOps (initBook h i spot rate).2 (initBook h i spot rate).1 ops).get? i =
      h.get? i := by
  have hne : i ≠ (initBook h i spot rate).2.ref := Nat.ne_of_lt hi
  rw [runOps_get?_of_ne _ _ hne ops _]
  exact get?_append_of_lt h _ i hi

/-- C10 witness: a one-table heap is unchanged at the caller's address after
construction followed by inventory estimation, Greeks calculation and a
query. -/
theorem init_copy_preserves_caller_witness :
    0 < wHeap.length ∧
    (runOps (initBook wHeap 0 4100 0.04).2 (initBook wHeap 0 4100 0.04).1
        [DealerOp.inventory, DealerOp.greeks, DealerOp.query]).get? 0 =
      wHeap.get? 0 := by
  have h0 : 0 < wHeap.length := by simp [wHeap]
  exact ⟨h0, init_copy_preserves_caller wHeap 0 h0 4100 0.04 _⟩

end SPX
